import Mathlib

/-!
Verification development for the camerpi repository
(`src/astro/camerpi/camerpi.py`, `src/astro/camerpi/camera.py`).

The development shallowly embeds the two pure cores of the program:

* the parameter resolver of `camera_still_cmd` / `camera_timelapse_cmd`
  (exposure-expression resolution, ISO→gain conversion, pause-time and
  timeout derivation), and
* the capability-report line parser `_init_cameras`.

Python floats are modelled as exact rationals (`ℚ`); the builtin `int()`
applied to a float is truncation toward zero (`ratTrunc`); Python string
parsing builtins `int(str)` / `float(str)` are modelled on plain decimal
literals (optional sign, digits, optional fractional part), which covers
every form the program's regexes and CLI inputs can produce.  Python
dictionaries (which preserve insertion order and replace values in place
on key reassignment) are modelled as association lists with
`dictInsert` / `updAt`.  A Python exception aborting the function is
modelled as `Except.error`; in particular referencing a local variable
that was never assigned is `PyErr.unboundLocalError`, and division by
zero is `PyErr.zeroDivisionError`.
-/

namespace Camerpi

/-- The Python exceptions the embedded code can raise. -/
inductive PyErr
  | zeroDivisionError
  | valueError
  | unboundLocalError
deriving DecidableEq, Repr

/-- ASCII whitespace stripped by `str.strip()` (and matched by `\s`). -/
def isPySpace (c : Char) : Bool :=
  c = ' ' || c = '\t' || c = '\n' || c = '\r' || c = Char.ofNat 11 || c = Char.ofNat 12

/-- Models `str.strip()`: remove leading and trailing whitespace. -/
def pyStrip (cs : List Char) : List Char :=
  ((cs.dropWhile isPySpace).reverse.dropWhile isPySpace).reverse

/-- Models `str.startswith(p)` on the character list of a string. -/
def charsStartWith : List Char → List Char → Bool
  | _, [] => true
  | [], _ :: _ => false
  | c :: cs, p :: ps => c == p && charsStartWith cs ps

/-- Models `str.endswith(p)` on the character list of a string. -/
def charsEndWith (cs suf : List Char) : Bool :=
  charsStartWith cs.reverse suf.reverse

/-- Value of a list of decimal digit characters (most significant first). -/
def digitsToNat (cs : List Char) : Nat :=
  cs.foldl (fun a c => a * 10 + (c.toNat - 48)) 0

/-- Helper for `pyIntOfChars?`: a non-empty all-digit string, as a number. -/
def parseUnsignedNat? (cs : List Char) : Option Nat :=
  if cs.isEmpty then none
  else if cs.all (·.isDigit) then some (digitsToNat cs) else none

/-- Models the builtin `int(str)` on decimal integer literals: surrounding
whitespace is stripped, an optional single sign is accepted, the rest must
be one or more digits; anything else raises `ValueError` (here: `none`). -/
def pyIntOfChars? (cs : List Char) : Option Int :=
  match pyStrip cs with
  | '-' :: rest => (parseUnsignedNat? rest).map (fun n => -(n : Int))
  | '+' :: rest => (parseUnsignedNat? rest).map (fun n => (n : Int))
  | rest => (parseUnsignedNat? rest).map (fun n => (n : Int))

/-- The exact rational value of a decimal literal with integer-part digits
`ip` and fractional-part digits `fp`. -/
def pyFloatOfParts (ip fp : List Char) : ℚ :=
  (digitsToNat ip : ℚ) + (digitsToNat fp : ℚ) / (10 : ℚ) ^ fp.length

/-- Magnitude part of `pyFloatOfChars?`: `digits`, `digits.`, `.digits` or
`digits.digits`. -/
def pyFloatMag? (cs : List Char) : Option ℚ :=
  let ip := cs.takeWhile (·.isDigit)
  let r1 := cs.dropWhile (·.isDigit)
  match r1 with
  | [] => if ip.isEmpty then none else some (pyFloatOfParts ip [])
  | '.' :: r2 =>
    if (!ip.isEmpty || !r2.isEmpty) && r2.all (·.isDigit) then
      some (pyFloatOfParts ip r2)
    else none
  | _ => none

/-- Models the builtin `float(str)` on plain decimal literals (optional
sign, digits with an optional fractional part).  Exponent, `inf` and `nan`
forms never occur in the program's inputs and are not modelled. -/
def pyFloatOfChars? (cs : List Char) : Option ℚ :=
  match pyStrip cs with
  | '-' :: rest => (pyFloatMag? rest).map (fun q => -q)
  | '+' :: rest => pyFloatMag? rest
  | rest => pyFloatMag? rest

/-- Models the builtin `int()` applied to a float: truncation toward zero. -/
def ratTrunc (q : ℚ) : Int := if 0 ≤ q then ⌊q⌋ else ⌈q⌉

/-- Models the exposure-expression resolution of `camera_still_cmd`
(camerpi.py lines 524–529); the block at lines 628–633 of
`camera_timelapse_cmd` is textually identical:

```
if exposure.startswith("1/"):
    exposure_us = int(1.0/int(exposure[2:]) * 1_000_000)
elif exposure.endswith('"') or exposure.endswith('s'):
    exposure_us = int(float(exposure[:-1]) * 1_000_000)
else:
    exposure_us = int(1.0/int(exposure) * 1_000_000)
```
-/
def exposure_us (exposure : String) : Except PyErr Int :=
  let cs := exposure.data
  if charsStartWith cs ['1', '/'] then
    match pyIntOfChars? (cs.drop 2) with
    | none => .error .valueError
    | some n =>
      if n = 0 then .error .zeroDivisionError
      else .ok (ratTrunc (1 / (n : ℚ) * 1000000))
  else if charsEndWith cs ['"'] || charsEndWith cs ['s'] then
    match pyFloatOfChars? cs.dropLast with
    | none => .error .valueError
    | some s => .ok (ratTrunc (s * 1000000))
  else
    match pyIntOfChars? cs with
    | none => .error .valueError
    | some n =>
      if n = 0 then .error .zeroDivisionError
      else .ok (ratTrunc (1 / (n : ℚ) * 1000000))

/-- Decimal digit characters of `n`, least significant first, with `fuel`
bounding the recursion (`fuel > n` suffices). -/
def natDigitsRevAux : Nat → Nat → List Char
  | 0, _ => []
  | fuel + 1, n =>
    if n < 10 then [Nat.digitChar n]
    else Nat.digitChar (n % 10) :: natDigitsRevAux fuel (n / 10)

/-- Decimal rendering of a natural number, as produced by a Python f-string. -/
def natToChars (n : Nat) : List Char :=
  (natDigitsRevAux (n + 1) n).reverse

/-- Decimal rendering of a Python int, as produced by an f-string. -/
def intToChars (i : Int) : List Char :=
  if i < 0 then '-' :: natToChars (-i).toNat else natToChars i.toNat

/-- Decoder used to prove `natToChars` injective: value of a digit list,
least significant first. -/
def revDigitsVal : List Char → Nat
  | [] => 0
  | c :: cs => (c.toNat - 48) + 10 * revDigitsVal cs

/-- Word characters of the regex class `\w` (ASCII fragment). -/
def isWordChar (c : Char) : Bool :=
  c.isAlphanum || c = '_'

/-- Characters of the regex class `[RGB]`. -/
def isRGBChar (c : Char) : Bool :=
  c = 'R' || c = 'G' || c = 'B'

/-- A resolution entry of the camera tree, as built by `_init_cameras`
(camerpi.py lines 110–116). -/
structure Resolution where
  key : String
  resolution : Nat × Nat
  fps : ℚ
  cropPosition : Nat × Nat
  cropResolution : Nat × Nat
deriving DecidableEq, Repr

/-- A sensor mode of the camera tree, as built by `_init_cameras`
(camerpi.py lines 97–104). -/
structure Mode where
  key : String
  mode : String
  bayerOrder : String
  bitDepth : Nat
  packing : String
  resolutions : List (String × Resolution)
deriving DecidableEq, Repr

/-- A camera of the camera tree, as built by `_init_cameras`
(camerpi.py lines 85–91). -/
structure Camera where
  key : String
  dtoverlay : String
  sensorResolution : Nat × Nat
  device : String
  modes : List (String × Mode)
deriving DecidableEq, Repr

/-- Python-dict assignment `d[k] = v` on an insertion-ordered association
list: replace in place if the key is present, otherwise append. -/
def dictInsert {α : Type} : List (String × α) → String → α → List (String × α)
  | [], k, v => [(k, v)]
  | (k', v') :: t, k, v =>
    if k' = k then (k, v) :: t else (k', v') :: dictInsert t k v

/-- In-place update of the value at key `k` (first occurrence); the
identity when the key is absent. -/
def updAt {α : Type} : List (String × α) → String → (α → α) → List (String × α)
  | [], _, _ => []
  | (k', v') :: t, k, f =>
    if k' = k then (k', f v') :: t else (k', v') :: updAt t k f

/-- Python-dict lookup `d.get(k)`. -/
def dictGet? {α : Type} : List (String × α) → String → Option α
  | [], _ => none
  | (k', v') :: t, k => if k' = k then some v' else dictGet? t k

/-- The keys of an association list, in insertion order. -/
def dictKeys {α : Type} (d : List (String × α)) : List String :=
  d.map (·.1)

/-- Groups captured by `camera_re = (\d{1,2}) : (\w+) \[(\d+)x(\d+)\] \(([^\)]+)\)$`. -/
structure CamMatch where
  idStr : List Char
  name : List Char
  w : Nat
  h : Nat
  device : List Char
deriving DecidableEq, Repr

/-- Groups captured by `mode_re = (?:Modes: )?'(S([RGB]{4})(\d+)_(\w+))' : `,
together with the length of the whole match (group 0). -/
structure ModeMatch where
  label : List Char
  bayer : List Char
  depthDigits : List Char
  packTok : List Char
  matchedLen : Nat
deriving DecidableEq, Repr

/-- Groups captured by
`resolution_re = (\d+)x(\d+) \[(\d+\.\d+) fps - \((\d+), (\d+)\)/(\d+)x(\d+) crop\]`. -/
structure ResMatch where
  w : Nat
  h : Nat
  fps : ℚ
  cropX : Nat
  cropY : Nat
  cropW : Nat
  cropH : Nat
deriving DecidableEq, Repr

/-- `s.drop n` if `s` starts with the literal `lit` (with `n = lit.length`). -/
def dropLit (cs lit : List Char) : Option (List Char) :=
  if charsStartWith cs lit then some (cs.drop lit.length) else none

/-- Anchored match of `camera_re`.  Each `\d+`/`\w+`/`[^\)]+` piece is
followed by a character it cannot match, so greedy matching is the maximal
run and no backtracking arises; `\d{1,2}` fails exactly when the leading
digit run is empty or longer than two (a third digit can never satisfy the
following literal space). -/
def camMatch? (cs : List Char) : Option CamMatch :=
  let ds := cs.takeWhile (·.isDigit)
  let r1 := cs.dropWhile (·.isDigit)
  if ds.length = 0 ∨ 2 < ds.length then none else
  match dropLit r1 [' ', ':', ' '] with
  | none => none
  | some r2 =>
    let nm := r2.takeWhile isWordChar
    let r3 := r2.dropWhile isWordChar
    if nm.isEmpty then none else
    match dropLit r3 [' ', '['] with
    | none => none
    | some r4 =>
      let wds := r4.takeWhile (·.isDigit)
      let r5 := r4.dropWhile (·.isDigit)
      if wds.isEmpty then none else
      match r5 with
      | 'x' :: r6 =>
        let hds := r6.takeWhile (·.isDigit)
        let r7 := r6.dropWhile (·.isDigit)
        if hds.isEmpty then none else
        match dropLit r7 [']', ' ', '('] with
        | none => none
        | some r8 =>
          let dev := r8.takeWhile (fun c => c != ')')
          let r9 := r8.dropWhile (fun c => c != ')')
          if dev.isEmpty then none else
          match r9 with
          | [')'] => some { idStr := ds, name := nm, w := digitsToNat wds,
                            h := digitsToNat hds, device := dev }
          | _ => none
      | _ => none

/-- Anchored match of `mode_re` without the optional `Modes: ` tag. -/
def modeMatchCore? (cs : List Char) : Option ModeMatch :=
  match dropLit cs ['\'', 'S'] with
  | none => none
  | some r0 =>
    match r0 with
    | a :: b :: c :: d :: rest =>
      if isRGBChar a && isRGBChar b && isRGBChar c && isRGBChar d then
        let ds := rest.takeWhile (·.isDigit)
        let r1 := rest.dropWhile (·.isDigit)
        if ds.isEmpty then none else
        match r1 with
        | '_' :: r2 =>
          let wd := r2.takeWhile isWordChar
          let r3 := r2.dropWhile isWordChar
          if wd.isEmpty then none else
          match dropLit r3 ['\'', ' ', ':', ' '] with
          | some _ => some { label := 'S' :: a :: b :: c :: d :: (ds ++ '_' :: wd),
                             bayer := [a, b, c, d], depthDigits := ds, packTok := wd,
                             matchedLen := 11 + ds.length + wd.length }
          | none => none
        | _ => none
      else none
    | _ => none

/-- Anchored match of `mode_re`.  The optional `Modes: ` tag cannot
overlap the quote that must follow it, so the two alternatives of the
optional group are decided by the first character. -/
def modeMatch? (cs : List Char) : Option ModeMatch :=
  match dropLit cs ['M', 'o', 'd', 'e', 's', ':', ' '] with
  | some rest => (modeMatchCore? rest).map (fun m => { m with matchedLen := m.matchedLen + 7 })
  | none => modeMatchCore? cs

/-- Anchored match of `resolution_re` (trailing text is allowed: `re.match`
does not anchor the end). -/
def resMatch? (cs : List Char) : Option ResMatch :=
  let wds := cs.takeWhile (·.isDigit)
  let r1 := cs.dropWhile (·.isDigit)
  if wds.isEmpty then none else
  match r1 with
  | 'x' :: r2 =>
    let hds := r2.takeWhile (·.isDigit)
    let r3 := r2.dropWhile (·.isDigit)
    if hds.isEmpty then none else
    match dropLit r3 [' ', '['] with
    | none => none
    | some r4 =>
      let fi := r4.takeWhile (·.isDigit)
      let r5 := r4.dropWhile (·.isDigit)
      if fi.isEmpty then none else
      match r5 with
      | '.' :: r6 =>
        let ff := r6.takeWhile (·.isDigit)
        let r7 := r6.dropWhile (·.isDigit)
        if ff.isEmpty then none else
        match dropLit r7 [' ', 'f', 'p', 's', ' ', '-', ' ', '('] with
        | none => none
        | some r8 =>
          let cxs := r8.takeWhile (·.isDigit)
          let r9 := r8.dropWhile (·.isDigit)
          if cxs.isEmpty then none else
          match dropLit r9 [',', ' '] with
          | none => none
          | some r10 =>
            let cys := r10.takeWhile (·.isDigit)
            let r11 := r10.dropWhile (·.isDigit)
            if cys.isEmpty then none else
            match dropLit r11 [')', '/'] with
            | none => none
            | some r12 =>
              let cws := r12.takeWhile (·.isDigit)
              let r13 := r12.dropWhile (·.isDigit)
              if cws.isEmpty then none else
              match r13 with
              | 'x' :: r14 =>
                let chs := r14.takeWhile (·.isDigit)
                let r15 := r14.dropWhile (·.isDigit)
                if chs.isEmpty then none else
                match dropLit r15 [' ', 'c', 'r', 'o', 'p', ']'] with
                | none => none
                | some _ =>
                  some { w := digitsToNat wds, h := digitsToNat hds,
                         fps := pyFloatOfParts fi ff,
                         cropX := digitsToNat cxs, cropY := digitsToNat cys,
                         cropW := digitsToNat cws, cropH := digitsToNat chs }
              | _ => none
      | _ => none
  | _ => none

/-- Alternative `'S[RGB]{4}\d+` of `actionable_re`. -/
def altModeQuote (cs : List Char) : Bool :=
  match cs with
  | '\'' :: 'S' :: a :: b :: c :: d :: rest =>
    isRGBChar a && isRGBChar b && isRGBChar c && isRGBChar d &&
      (match rest with
       | e :: _ => e.isDigit
       | [] => false)
  | _ => false

/-- `\s?:` after the digit(s) of the alternative `\d{1,2}\s?:`. -/
def optSpaceColon (cs : List Char) : Bool :=
  match cs with
  | ':' :: _ => true
  | c :: ':' :: _ => isPySpace c
  | _ => false

/-- Alternative `\d{1,2}\s?:` of `actionable_re` (greedy on the digits,
with the regex engine's fallback from two digits to one). -/
def altCamDigits (cs : List Char) : Bool :=
  match cs with
  | c1 :: rest =>
    c1.isDigit &&
      (match rest with
       | c2 :: rest2 => (c2.isDigit && optSpaceColon rest2) || optSpaceColon rest
       | [] => false)
  | [] => false

/-- Alternative `\d+x\d+` of `actionable_re`. -/
def altResDigits (cs : List Char) : Bool :=
  let ds := cs.takeWhile (·.isDigit)
  let r1 := cs.dropWhile (·.isDigit)
  if ds.isEmpty then false else
  match r1 with
  | 'x' :: r2 =>
    match r2.takeWhile (·.isDigit) with
    | [] => false
    | _ :: _ => true
  | _ => false

/-- Anchored match of `actionable_re = Modes:|'S[RGB]{4}\d+|\d{1,2}\s?:|\d+x\d+`
as a Boolean filter (only `if actionable_re.match(row)` is used). -/
def actionable (cs : List Char) : Bool :=
  charsStartWith cs ['M', 'o', 'd', 'e', 's', ':'] || altModeQuote cs ||
    altCamDigits cs || altResDigits cs

/-- Rendering `f"C{ms.group(1)}"`: the group is used as a string. -/
def ckeyOf (idStr : List Char) : String := ⟨'C' :: idStr⟩

/-- Rendering `f"M{camera_mode_index}"`. -/
def mkeyStr (i : Int) : String := ⟨'M' :: intToChars i⟩

/-- Rendering `f"R{camera_mode_resolution_index}"`. -/
def rkeyStr (i : Int) : String := ⟨'R' :: intToChars i⟩

/-- The loop state of `_init_cameras`: the `cameras` dict, the global mode
and resolution counters, and the bindings of the local variables
`camera_modes` (the modes dict of the camera created by the last camera
header; `none` when still unbound) and `camera_mode_resolutions` (the
resolutions dict of the mode created by the last mode header, identified
by its access path). -/
structure PState where
  cameras : List (String × Camera)
  curCam : Option String
  curMode : Option (String × String)
  modeIdx : Int
  resIdx : Int
deriving DecidableEq, Repr

/-- The state before the loop: empty dict, counters at `-1`, both local
dict variables unbound. -/
def initState : PState :=
  { cameras := [], curCam := none, curMode := none, modeIdx := -1, resIdx := -1 }

/-- The camera record built at a camera-header line (lines 85–91). -/
def mkCamera (m : CamMatch) : Camera :=
  { key := ckeyOf m.idStr, dtoverlay := ⟨m.name⟩,
    sensorResolution := (m.w, m.h), device := ⟨m.device⟩, modes := [] }

/-- The mode record built at a mode-header line (lines 97–104). -/
def mkMode (mk : String) (mm : ModeMatch) : Mode :=
  { key := mk, mode := ⟨mm.label⟩, bayerOrder := ⟨mm.bayer⟩,
    bitDepth := digitsToNat mm.depthDigits, packing := ⟨mm.packTok⟩, resolutions := [] }

/-- The resolution record built at a resolution-entry line (lines 110–116). -/
def mkRes (rk : String) (rm : ResMatch) : Resolution :=
  { key := rk, resolution := (rm.w, rm.h), fps := rm.fps,
    cropPosition := (rm.cropX, rm.cropY), cropResolution := (rm.cropW, rm.cropH) }

/-- Effect of a camera-header line: `cameras[camera_key] = {...}` and
rebinding of `camera_modes` (lines 83–92).  The counters are untouched and
`camera_mode_resolutions` keeps its old binding. -/
def camStep (s : PState) (m : CamMatch) : PState :=
  { s with cameras := dictInsert s.cameras (ckeyOf m.idStr) (mkCamera m),
           curCam := some (ckeyOf m.idStr) }

/-- Effect of a mode-header line with current camera `ck`:
`camera_mode_index += 1; camera_modes[mode_key] = {...}` and rebinding of
`camera_mode_resolutions` (lines 94–105). -/
def modeStep (s : PState) (ck : String) (mm : ModeMatch) : PState :=
  let mk := mkeyStr (s.modeIdx + 1)
  let insMode : Camera → Camera := fun c =>
    { c with modes := dictInsert c.modes mk (mkMode mk mm) }
  { s with modeIdx := s.modeIdx + 1, curMode := some (ck, mk),
           cameras := updAt s.cameras ck insMode }

/-- Effect of a resolution-entry line with
`camera_mode_resolutions` bound to the mode at path `p`:
`camera_mode_resolution_index += 1; camera_mode_resolutions[resolution_key] = {...}`
(lines 107–116).  When the path no longer exists in the tree (the camera
entry was replaced by a later header with the same id), the bound dict is
an orphaned object and the write does not affect the tree. -/
def resStep (s : PState) (p : String × String) (rm : ResMatch) : PState :=
  let rk := rkeyStr (s.resIdx + 1)
  let insRes : Mode → Mode := fun m =>
    { m with resolutions := dictInsert m.resolutions rk (mkRes rk rm) }
  let insCam : Camera → Camera := fun c => { c with modes := updAt c.modes p.2 insRes }
  { s with resIdx := s.resIdx + 1, cameras := updAt s.cameras p.1 insCam }

/-- The resolution-entry check at the end of the loop body (lines 107–116),
applied to the possibly mode-stripped row. -/
def resPhase (s : PState) (row : List Char) : Except PyErr PState :=
  match resMatch? row with
  | none => .ok s
  | some rm =>
    match s.curMode with
    | none => .error .unboundLocalError
    | some p => .ok (resStep s p rm)

/-- One iteration of the `_init_cameras` loop on an already stripped row
(lines 79–116): the actionable filter, then the camera / mode / resolution
dispatch, with `row = row[len(ms.group(0)):]` after a mode match. -/
def stepRowChars (s : PState) (row : List Char) : Except PyErr PState :=
  if actionable row then
    match camMatch? row with
    | some m => .ok (camStep s m)
    | none =>
      match modeMatch? row with
      | some mm =>
        match s.curCam with
        | none => .error .unboundLocalError
        | some ck => resPhase (modeStep s ck mm) (row.drop mm.matchedLen)
      | none => resPhase s row
  else .ok s

/-- One iteration of the loop on a raw report line (`row = row.strip()`). -/
def stepRow (s : PState) (row : String) : Except PyErr PState :=
  stepRowChars s (pyStrip row.data)

/-- The `_init_cameras` loop over all report lines. -/
def runRows (s : PState) : List String → Except PyErr PState
  | [] => .ok s
  | r :: rs =>
    match stepRow s r with
    | .error e => .error e
    | .ok s' => runRows s' rs

/-- `_init_cameras` on an already line-split report. -/
def initCamerasFromLines (rows : List String) : Except PyErr (List (String × Camera)) :=
  match runRows initState rows with
  | .error e => .error e
  | .ok s => .ok s.cameras

/-- `_init_cameras` (camerpi.py lines 56–117) on the decoded report text
(`.split("\n")`); the external process invocation is outside the model. -/
def init_cameras (text : String) : Except PyErr (List (String × Camera)) :=
  initCamerasFromLines (text.splitOn "\n")

/-- All mode keys of one camera, in insertion order. -/
def modeKeysOfCam (c : Camera) : List String :=
  dictKeys c.modes

/-- All mode keys of the tree, cameras in insertion order. -/
def modeKeys (cams : List (String × Camera)) : List String :=
  cams.flatMap (fun e => modeKeysOfCam e.2)

/-- All resolution keys of one mode. -/
def resKeysOfMode (m : Mode) : List String :=
  dictKeys m.resolutions

/-- All resolution keys of a modes dict. -/
def resKeysOfModes (ms : List (String × Mode)) : List String :=
  ms.flatMap (fun e => resKeysOfMode e.2)

/-- All resolution keys of one camera. -/
def resKeysOfCam (c : Camera) : List String :=
  resKeysOfModes c.modes

/-- All resolution keys of the tree. -/
def resKeys (cams : List (String × Camera)) : List String :=
  cams.flatMap (fun e => resKeysOfCam e.2)

/-- Lookup of a mode at a camera key and mode key. -/
def getModeAt (cams : List (String × Camera)) (ck mk : String) : Option Mode :=
  match dictGet? cams ck with
  | none => none
  | some c => dictGet? c.modes mk

/-- Models `camera_key = f"C{camera_index}" if camera_index else config['default-camera']`
(camerpi.py line 409): `camera_index` is `None` or an int, and Python
truthiness sends both `None` and `0` to the fallback. -/
def pickCameraKey (cameraIndex : Option Int) (dflt : String) : String :=
  match cameraIndex with
  | some i => if i = 0 then dflt else ⟨'C' :: intToChars i⟩
  | none => dflt

/-- Models `mode_key = f"M{mode_index}" if mode_index else config['default-mode']`
(camerpi.py line 413). -/
def pickModeKey (modeIndex : Option Int) (dflt : String) : String :=
  match modeIndex with
  | some i => if i = 0 then dflt else ⟨'M' :: intToChars i⟩
  | none => dflt

/-- Models `resolution_key = f"R{resolution_index}" if resolution_index else config['default-resolution']`
(camerpi.py line 417). -/
def pickResolutionKey (resolutionIndex : Option Int) (dflt : String) : String :=
  match resolutionIndex with
  | some i => if i = 0 then dflt else ⟨'R' :: intToChars i⟩
  | none => dflt

/-- Models `config['default-camera'] = list(cameras.keys())[-1]` (line 33)
and its mode/resolution analogues (lines 40, 47): the default at each
level is the last-inserted key. -/
def defaultKey {α : Type} (d : List (String × α)) : Option String :=
  (dictKeys d).getLast?

/-- A one-character string holding a single quote, used to spell report
lines containing quoted mode labels. -/
def sq : String := ⟨['\'']⟩

/-- A concrete two-camera capability report in the external tool's format
(used to instantiate the parser theorems). -/
def report2 : List String :=
  [ "0 : imx708 [4608x2592] (/dev/media3)"
  , "    Modes: " ++ sq ++ "SRGGB10_CSI2P" ++ sq ++
      " : 1536x864 [120.13 fps - (768, 432)/1536x864 crop]"
  , "                             2304x1296 [56.03 fps - (0, 0)/4608x2592 crop]"
  , "1 : imx477 [4056x3040] (/dev/media0)"
  , "    Modes: " ++ sq ++ "SRGGB12_CSI2P" ++ sq ++
      " : 2028x1520 [40.01 fps - (0, 440)/4056x2160 crop]" ]

/-- The tree that parsing `report2` produces. -/
def tree2 : List (String × Camera) :=
  [ ("C0",
     { key := "C0", dtoverlay := "imx708", sensorResolution := (4608, 2592),
       device := "/dev/media3",
       modes := [ ("M0",
         { key := "M0", mode := "SRGGB10_CSI2P", bayerOrder := "RGGB",
           bitDepth := 10, packing := "CSI2P",
           resolutions := [ ("R0",
             { key := "R0", resolution := (1536, 864),
               fps := pyFloatOfParts ("120").data ("13").data,
               cropPosition := (768, 432), cropResolution := (1536, 864) })
           , ("R1",
             { key := "R1", resolution := (2304, 1296),
               fps := pyFloatOfParts ("56").data ("03").data,
               cropPosition := (0, 0), cropResolution := (4608, 2592) }) ] }) ] })
  , ("C1",
     { key := "C1", dtoverlay := "imx477", sensorResolution := (4056, 3040),
       device := "/dev/media0",
       modes := [ ("M1",
         { key := "M1", mode := "SRGGB12_CSI2P", bayerOrder := "RGGB",
           bitDepth := 12, packing := "CSI2P",
           resolutions := [ ("R2",
             { key := "R2", resolution := (2028, 1520),
               fps := pyFloatOfParts ("40").data ("01").data,
               cropPosition := (0, 440), cropResolution := (4056, 2160) }) ] }) ] }) ]

/-- Invariant of the `_init_cameras` loop state: the counters never fall
below their initial value `-1`; the camera keys of the tree are distinct;
every mode key of the tree renders some integer `0 ≤ j ≤ modeIdx` and the
mode keys are distinct; likewise for resolution keys with `resIdx`. -/
def Inv (s : PState) : Prop :=
  -1 ≤ s.modeIdx ∧ -1 ≤ s.resIdx ∧
  (dictKeys s.cameras).Nodup ∧
  (modeKeys s.cameras).Nodup ∧
  (∀ k ∈ modeKeys s.cameras, ∃ j : Int, 0 ≤ j ∧ j ≤ s.modeIdx ∧ k = mkeyStr j) ∧
  (resKeys s.cameras).Nodup ∧
  (∀ k ∈ resKeys s.cameras, ∃ j : Int, 0 ≤ j ∧ j ≤ s.resIdx ∧ k = rkeyStr j)

/-! ### Arithmetic and rendering lemmas -/

theorem digitChar_isDigit {n : Nat} (h : n < 10) : (Nat.digitChar n).isDigit = true := by
  interval_cases n <;> decide

theorem digitChar_toNat {n : Nat} (h : n < 10) : (Nat.digitChar n).toNat = 48 + n := by
  interval_cases n <;> decide

theorem revDigitsVal_natDigitsRevAux :
    ∀ fuel n : Nat, n < fuel → revDigitsVal (natDigitsRevAux fuel n) = n := by
  intro fuel
  induction fuel with
  | zero => intro n h; omega
  | succ f ih =>
    intro n h
    rw [natDigitsRevAux]
    by_cases h10 : n < 10
    · rw [if_pos h10, revDigitsVal, revDigitsVal, digitChar_toNat h10]
      omega
    · rw [if_neg h10, revDigitsVal]
      have hdiv : n / 10 < n := Nat.div_lt_self (by omega) (by omega)
      rw [ih (n / 10) (by omega), digitChar_toNat (Nat.mod_lt n (by omega))]
      omega

theorem mem_natDigitsRevAux_isDigit :
    ∀ fuel n : Nat, ∀ c ∈ natDigitsRevAux fuel n, c.isDigit = true := by
  intro fuel
  induction fuel with
  | zero => intro n c hc; simp [natDigitsRevAux] at hc
  | succ f ih =>
    intro n c hc
    rw [natDigitsRevAux] at hc
    by_cases h10 : n < 10
    · rw [if_pos h10] at hc
      simp only [List.mem_singleton] at hc
      exact hc ▸ digitChar_isDigit h10
    · rw [if_neg h10] at hc
      rcases List.mem_cons.mp hc with h | h
      · exact h ▸ digitChar_isDigit (Nat.mod_lt n (by omega))
      · exact ih (n / 10) c h

theorem mem_natToChars_isDigit {n : Nat} {c : Char} (hc : c ∈ natToChars n) :
    c.isDigit = true :=
  mem_natDigitsRevAux_isDigit (n + 1) n c (List.mem_reverse.mp hc)

theorem natToChars_inj {a b : Nat} (h : natToChars a = natToChars b) : a = b := by
  have h' : natDigitsRevAux (a + 1) a = natDigitsRevAux (b + 1) b := by
    have := congrArg List.reverse h
    simpa [natToChars] using this
  calc a = revDigitsVal (natDigitsRevAux (a + 1) a) :=
        (revDigitsVal_natDigitsRevAux (a + 1) a (by omega)).symm
    _ = revDigitsVal (natDigitsRevAux (b + 1) b) := by rw [h']
    _ = b := revDigitsVal_natDigitsRevAux (b + 1) b (by omega)

theorem intToChars_inj {i j : Int} (h : intToChars i = intToChars j) : i = j := by
  rw [intToChars, intToChars] at h
  by_cases hi : i < 0 <;> by_cases hj : j < 0
  · rw [if_pos hi, if_pos hj] at h
    have := natToChars_inj (List.cons_injective h)
    omega
  · rw [if_pos hi, if_neg hj] at h
    have hmem : '-' ∈ natToChars j.toNat := h ▸ List.mem_cons_self '-' _
    have := mem_natToChars_isDigit hmem
    simp [Char.isDigit] at this
  · rw [if_neg hi, if_pos hj] at h
    have hmem : '-' ∈ natToChars i.toNat := h.symm ▸ List.mem_cons_self '-' _
    have := mem_natToChars_isDigit hmem
    simp [Char.isDigit] at this
  · rw [if_neg hi, if_neg hj] at h
    have := natToChars_inj h
    omega

theorem mkeyStr_inj {i j : Int} (h : mkeyStr i = mkeyStr j) : i = j := by
  rw [mkeyStr, mkeyStr] at h
  have hd : 'M' :: intToChars i = 'M' :: intToChars j := congrArg String.data h
  exact intToChars_inj (List.cons_injective hd)

theorem rkeyStr_inj {i j : Int} (h : rkeyStr i = rkeyStr j) : i = j := by
  rw [rkeyStr, rkeyStr] at h
  have hd : 'R' :: intToChars i = 'R' :: intToChars j := congrArg String.data h
  exact intToChars_inj (List.cons_injective hd)

/-! ### Claim theorems: parameter resolver -/

/-- C2: at the exposure inputs `"0"` and `"1/0"` the code divides by zero
in `int(1.0/int(...) * 1_000_000)` with no handler on the call path, so an
uncaught `ZeroDivisionError` propagates; no `InvalidExposureFormat` error
exists anywhere in the program. -/
theorem c2_zero_division :
    exposure_us "0" = .error .zeroDivisionError ∧
      exposure_us "1/0" = .error .zeroDivisionError :=
  ⟨rfl, rfl⟩

theorem dictGet?_dictInsert_self {α : Type} (d : List (String × α)) (k : String) (v : α) :
    dictGet? (dictInsert d k v) k = some v := by
  induction d with
  | nil => simp [dictInsert, dictGet?]
  | cons e t ih =>
    obtain ⟨k', v'⟩ := e
    by_cases h : k' = k
    · simp [dictInsert, h, dictGet?]
    · simp [dictInsert, h, dictGet?, ih]

theorem dictGet?_updAt {α : Type} (d : List (String × α)) (k : String) (f : α → α) :
    dictGet? (updAt d k f) k = (dictGet? d k).map f := by
  induction d with
  | nil => simp [updAt, dictGet?]
  | cons e t ih =>
    obtain ⟨k', v'⟩ := e
    by_cases h : k' = k
    · simp [updAt, h, dictGet?]
    · simp [updAt, h, dictGet?, ih]

theorem dictKeys_updAt {α : Type} (d : List (String × α)) (k : String) (f : α → α) :
    dictKeys (updAt d k f) = dictKeys d := by
  induction d with
  | nil => rfl
  | cons e t ih =>
    obtain ⟨k', v'⟩ := e
    by_cases h : k' = k
    · simp [updAt, h, dictKeys]
    · simp only [updAt, if_neg h]
      simp only [dictKeys, List.map_cons] at ih ⊢
      rw [ih]

theorem dictKeys_dictInsert {α : Type} (d : List (String × α)) (k : String) (v : α) :
    dictKeys (dictInsert d k v) =
      if k ∈ dictKeys d then dictKeys d else dictKeys d ++ [k] := by
  induction d with
  | nil => simp [dictInsert, dictKeys]
  | cons e t ih =>
    obtain ⟨k', v'⟩ := e
    by_cases h : k' = k
    · subst h
      rw [dictInsert, if_pos rfl, if_pos (by simp [dictKeys])]
      simp [dictKeys]
    · rw [dictInsert, if_neg h]
      have hcons : dictKeys ((k', v') :: dictInsert t k v) =
          k' :: dictKeys (dictInsert t k v) := rfl
      have hcons2 : dictKeys ((k', v') :: t) = k' :: dictKeys t := rfl
      rw [hcons, hcons2, ih]
      by_cases hm : k ∈ dictKeys t
      · rw [if_pos hm, if_pos (List.mem_cons_of_mem _ hm)]
      · have hnc : k ∉ k' :: dictKeys t := by
          intro hc
          rcases List.mem_cons.mp hc with hc | hc
          · exact h hc.symm
          · exact hm hc
        rw [if_neg hm, if_neg hnc, List.cons_append]

theorem mem_dictKeys_dictInsert {α : Type} (d : List (String × α)) (k a : String) (v : α) :
    a ∈ dictKeys (dictInsert d k v) ↔ a ∈ dictKeys d ∨ a = k := by
  rw [dictKeys_dictInsert]
  by_cases hm : k ∈ dictKeys d
  · rw [if_pos hm]
    constructor
    · exact Or.inl
    · rintro (h | rfl)
      exacts [h, hm]
  · rw [if_neg hm]
    simp [List.mem_append]

theorem nodup_dictKeys_dictInsert {α : Type} (d : List (String × α)) (k : String) (v : α)
    (h : (dictKeys d).Nodup) : (dictKeys (dictInsert d k v)).Nodup := by
  rw [dictKeys_dictInsert]
  by_cases hm : k ∈ dictKeys d
  · rwa [if_pos hm]
  · rw [if_neg hm, show dictKeys d ++ [k] = dictKeys d ++ k :: [] from rfl,
      List.nodup_middle]
    simp [hm, h]

theorem dictInsert_of_not_mem {α : Type} {d : List (String × α)} {k : String} (v : α)
    (h : k ∉ dictKeys d) : dictInsert d k v = d ++ [(k, v)] := by
  induction d with
  | nil => rfl
  | cons e t ih =>
    obtain ⟨k', v'⟩ := e
    simp only [dictKeys, List.map_cons, List.mem_cons] at h
    push_neg at h
    rw [dictInsert, if_neg (fun hh => h.1 hh.symm), ih h.2]
    rfl

theorem updAt_of_not_mem {α : Type} {d : List (String × α)} {k : String} (f : α → α)
    (h : k ∉ dictKeys d) : updAt d k f = d := by
  induction d with
  | nil => rfl
  | cons e t ih =>
    obtain ⟨k', v'⟩ := e
    simp only [dictKeys, List.map_cons, List.mem_cons] at h
    push_neg at h
    rw [updAt, if_neg (fun hh => h.1 hh.symm), ih h.2]

/-! ### Key-list lemmas for the parser invariant -/

theorem modeKeys_nil : modeKeys [] = [] := rfl

theorem modeKeys_cons (k : String) (c : Camera) (t : List (String × Camera)) :
    modeKeys ((k, c) :: t) = modeKeysOfCam c ++ modeKeys t := by
  simp [modeKeys]

theorem resKeys_cons (k : String) (c : Camera) (t : List (String × Camera)) :
    resKeys ((k, c) :: t) = resKeysOfCam c ++ resKeys t := by
  simp [resKeys]

theorem resKeysOfModes_cons (k : String) (m : Mode) (t : List (String × Mode)) :
    resKeysOfModes ((k, m) :: t) = resKeysOfMode m ++ resKeysOfModes t := by
  simp [resKeysOfModes]

theorem modeKeys_dictInsert_empty (d : List (String × Camera)) (k : String) (c : Camera)
    (hc : c.modes = []) : List.Sublist (modeKeys (dictInsert d k c)) (modeKeys d) := by
  induction d with
  | nil =>
    simp [dictInsert, modeKeys, modeKeysOfCam, dictKeys, hc]
  | cons e t ih =>
    obtain ⟨k', c'⟩ := e
    by_cases h : k' = k
    · rw [dictInsert, if_pos h, modeKeys_cons, modeKeys_cons]
      rw [show modeKeysOfCam c = [] by simp [modeKeysOfCam, hc, dictKeys]]
      exact List.sublist_append_right _ _
    · rw [dictInsert, if_neg h, modeKeys_cons, modeKeys_cons]
      exact ih.append_left _

theorem resKeys_dictInsert_empty (d : List (String × Camera)) (k : String) (c : Camera)
    (hc : c.modes = []) : List.Sublist (resKeys (dictInsert d k c)) (resKeys d) := by
  induction d with
  | nil =>
    simp [dictInsert, resKeys, resKeysOfCam, resKeysOfModes, hc]
  | cons e t ih =>
    obtain ⟨k', c'⟩ := e
    by_cases h : k' = k
    · rw [dictInsert, if_pos h, resKeys_cons, resKeys_cons]
      rw [show resKeysOfCam c = [] by simp [resKeysOfCam, resKeysOfModes, hc]]
      exact List.sublist_append_right _ _
    · rw [dictInsert, if_neg h, resKeys_cons, resKeys_cons]
      exact ih.append_left _

theorem modeKeys_updAt_insMode (d : List (String × Camera)) (ck nk : String) (nm : Mode)
    (hmem : ck ∈ dictKeys d) (hfresh : nk ∉ modeKeys d) :
    List.Perm
      (modeKeys (updAt d ck (fun c => { c with modes := dictInsert c.modes nk nm })))
      (nk :: modeKeys d) := by
  induction d with
  | nil => simp [dictKeys] at hmem
  | cons e t ih =>
    obtain ⟨k', c'⟩ := e
    rw [modeKeys_cons] at hfresh
    simp only [List.mem_append] at hfresh
    push_neg at hfresh
    by_cases h : k' = ck
    · rw [updAt, if_pos h, modeKeys_cons, modeKeys_cons]
      have hins : dictInsert c'.modes nk nm = c'.modes ++ [(nk, nm)] :=
        dictInsert_of_not_mem nm hfresh.1
      have hkeys : modeKeysOfCam { c' with modes := dictInsert c'.modes nk nm } =
          modeKeysOfCam c' ++ [nk] := by
        simp [modeKeysOfCam, hins, dictKeys]
      rw [hkeys, List.append_assoc]
      exact List.perm_middle
    · rw [updAt, if_neg h, modeKeys_cons, modeKeys_cons]
      have hmem' : ck ∈ dictKeys t := by
        simp only [dictKeys, List.map_cons, List.mem_cons] at hmem
        rcases hmem with hmem | hmem
        · exact absurd hmem.symm h
        · exact hmem
      exact ((ih hmem' hfresh.2).append_left _).trans List.perm_middle

theorem resKeys_updAt_insMode (d : List (String × Camera)) (ck nk : String) (nm : Mode)
    (hres : nm.resolutions = []) (hfresh : nk ∉ modeKeys d) :
    resKeys (updAt d ck (fun c => { c with modes := dictInsert c.modes nk nm })) =
      resKeys d := by
  induction d with
  | nil => rfl
  | cons e t ih =>
    obtain ⟨k', c'⟩ := e
    rw [modeKeys_cons] at hfresh
    simp only [List.mem_append] at hfresh
    push_neg at hfresh
    by_cases h : k' = ck
    · rw [updAt, if_pos h, resKeys_cons, resKeys_cons]
      have hins : dictInsert c'.modes nk nm = c'.modes ++ [(nk, nm)] :=
        dictInsert_of_not_mem nm hfresh.1
      have hkeys : resKeysOfCam { c' with modes := dictInsert c'.modes nk nm } =
          resKeysOfCam c' := by
        simp [resKeysOfCam, hins, resKeysOfModes, List.flatMap_append, resKeysOfMode,
          hres, dictKeys]
      rw [hkeys]
    · rw [updAt, if_neg h, resKeys_cons, resKeys_cons, ih hfresh.2]

theorem modeKeys_updAt_keysPres (d : List (String × Camera)) (ck : String)
    (g : Camera → Camera) (hg : ∀ c, modeKeysOfCam (g c) = modeKeysOfCam c) :
    modeKeys (updAt d ck g) = modeKeys d := by
  induction d with
  | nil => rfl
  | cons e t ih =>
    obtain ⟨k', c'⟩ := e
    by_cases h : k' = ck
    · rw [updAt, if_pos h, modeKeys_cons, modeKeys_cons, hg]
    · rw [updAt, if_neg h, modeKeys_cons, modeKeys_cons, ih]

theorem resKeysOfModes_updAt_insRes (ms : List (String × Mode)) (mk rk : String)
    (rr : Resolution) (hfresh : rk ∉ resKeysOfModes ms) :
    resKeysOfModes (updAt ms mk
        (fun m => { m with resolutions := dictInsert m.resolutions rk rr })) =
      resKeysOfModes ms ∨
    List.Perm
      (resKeysOfModes (updAt ms mk
        (fun m => { m with resolutions := dictInsert m.resolutions rk rr })))
      (rk :: resKeysOfModes ms) := by
  induction ms with
  | nil => exact Or.inl rfl
  | cons e t ih =>
    obtain ⟨k', m'⟩ := e
    rw [resKeysOfModes_cons] at hfresh
    simp only [List.mem_append] at hfresh
    push_neg at hfresh
    by_cases h : k' = mk
    · right
      rw [updAt, if_pos h, resKeysOfModes_cons, resKeysOfModes_cons]
      have hins : dictInsert m'.resolutions rk rr = m'.resolutions ++ [(rk, rr)] :=
        dictInsert_of_not_mem rr hfresh.1
      have hkeys : resKeysOfMode { m' with resolutions := dictInsert m'.resolutions rk rr } =
          resKeysOfMode m' ++ [rk] := by
        simp [resKeysOfMode, hins, dictKeys]
      rw [hkeys, List.append_assoc]
      exact List.perm_middle
    · rw [updAt, if_neg h, resKeysOfModes_cons, resKeysOfModes_cons]
      rcases ih hfresh.2 with heq | hperm
      · exact Or.inl (by rw [heq])
      · exact Or.inr ((hperm.append_left _).trans List.perm_middle)

theorem resKeys_updAt_insRes (d : List (String × Camera)) (ck mk rk : String)
    (rr : Resolution) (hfresh : rk ∉ resKeys d) :
    resKeys (updAt d ck (fun c =>
        { c with modes := (updAt c.modes mk (fun m =>
            { m with resolutions := dictInsert m.resolutions rk rr })) })) =
      resKeys d ∨
    List.Perm
      (resKeys (updAt d ck (fun c =>
        { c with modes := (updAt c.modes mk (fun m =>
            { m with resolutions := dictInsert m.resolutions rk rr })) })))
      (rk :: resKeys d) := by
  induction d with
  | nil => exact Or.inl rfl
  | cons e t ih =>
    obtain ⟨k', c'⟩ := e
    rw [resKeys_cons] at hfresh
    simp only [List.mem_append] at hfresh
    push_neg at hfresh
    by_cases h : k' = ck
    · rw [updAt, if_pos h, resKeys_cons, resKeys_cons]
      have hcam : resKeysOfCam
          { c' with modes := (updAt c'.modes mk (fun m =>
              { m with resolutions := dictInsert m.resolutions rk rr })) } =
          resKeysOfModes (updAt c'.modes mk (fun m =>
            { m with resolutions := dictInsert m.resolutions rk rr })) := rfl
      rcases resKeysOfModes_updAt_insRes c'.modes mk rk rr hfresh.1 with heq | hperm
      · exact Or.inl (by rw [hcam, heq]; rfl)
      · right
        rw [hcam]
        exact hperm.append_right _
    · rw [updAt, if_neg h, resKeys_cons, resKeys_cons]
      rcases ih hfresh.2 with heq | hperm
      · exact Or.inl (by rw [heq])
      · exact Or.inr ((hperm.append_left _).trans List.perm_middle)

/-- C10: supplying index 0 at any of the three selection levels is
identical to supplying no index: Python truthiness sends `0` to the
`config` fallback instead of resolving the key `C0`, `M0` or `R0`. -/
theorem c10_zero_index :
    ∀ dflt : String,
      (pickCameraKey (some 0) dflt = dflt ∧
        pickCameraKey (some 0) dflt = pickCameraKey none dflt) ∧
      (pickModeKey (some 0) dflt = dflt ∧
        pickModeKey (some 0) dflt = pickModeKey none dflt) ∧
      (pickResolutionKey (some 0) dflt = dflt ∧
        pickResolutionKey (some 0) dflt = pickResolutionKey none dflt) := by
  intro dflt
  refine ⟨⟨rfl, rfl⟩, ⟨rfl, rfl⟩, ⟨rfl, rfl⟩⟩

/-! ### Invariant preservation for the `_init_cameras` loop -/

theorem inv_camStep (s : PState) (m : CamMatch) (h : Inv s) : Inv (camStep s m) := by
  obtain ⟨h1, h2, h3, h4, h5, h6, h7⟩ := h
  have hmodes : (mkCamera m).modes = [] := rfl
  have hsubm := modeKeys_dictInsert_empty s.cameras (ckeyOf m.idStr) (mkCamera m) hmodes
  have hsubr := resKeys_dictInsert_empty s.cameras (ckeyOf m.idStr) (mkCamera m) hmodes
  exact ⟨h1, h2, nodup_dictKeys_dictInsert _ _ _ h3, h4.sublist hsubm,
    fun k hk => h5 k (hsubm.subset hk), h6.sublist hsubr,
    fun k hk => h7 k (hsubr.subset hk)⟩

theorem inv_modeStep (s : PState) (ck : String) (mm : ModeMatch) (h : Inv s) :
    Inv (modeStep s ck mm) := by
  obtain ⟨h1, h2, h3, h4, h5, h6, h7⟩ := h
  have hfresh : mkeyStr (s.modeIdx + 1) ∉ modeKeys s.cameras := by
    intro hmem
    obtain ⟨j, hj0, hjle, hjeq⟩ := h5 _ hmem
    have := mkeyStr_inj hjeq
    omega
  simp only [Inv, modeStep]
  by_cases hck : ck ∈ dictKeys s.cameras
  · have hperm := modeKeys_updAt_insMode s.cameras ck (mkeyStr (s.modeIdx + 1))
      (mkMode (mkeyStr (s.modeIdx + 1)) mm) hck hfresh
    have hres := resKeys_updAt_insMode s.cameras ck (mkeyStr (s.modeIdx + 1))
      (mkMode (mkeyStr (s.modeIdx + 1)) mm) rfl hfresh
    refine ⟨by omega, h2, ?_, ?_, ?_, ?_, ?_⟩
    · rw [dictKeys_updAt]
      exact h3
    · exact hperm.symm.nodup (List.nodup_cons.mpr ⟨hfresh, h4⟩)
    · intro k hk
      rcases List.mem_cons.mp (hperm.mem_iff.mp hk) with hk' | hk'
      · exact ⟨s.modeIdx + 1, by omega, le_refl _, hk'⟩
      · obtain ⟨j, hj0, hjle, hjeq⟩ := h5 k hk'
        exact ⟨j, hj0, by omega, hjeq⟩
    · rw [hres]
      exact h6
    · intro k hk
      rw [hres] at hk
      exact h7 k hk
  · rw [updAt_of_not_mem _ hck]
    refine ⟨by omega, h2, h3, h4, ?_, h6, h7⟩
    intro k hk
    obtain ⟨j, hj0, hjle, hjeq⟩ := h5 k hk
    exact ⟨j, hj0, by omega, hjeq⟩

theorem inv_resStep (s : PState) (p : String × String) (rm : ResMatch) (h : Inv s) :
    Inv (resStep s p rm) := by
  obtain ⟨h1, h2, h3, h4, h5, h6, h7⟩ := h
  have hfresh : rkeyStr (s.resIdx + 1) ∉ resKeys s.cameras := by
    intro hmem
    obtain ⟨j, hj0, hjle, hjeq⟩ := h7 _ hmem
    have := rkeyStr_inj hjeq
    omega
  simp only [Inv, resStep]
  have hmk : modeKeys (updAt s.cameras p.1 (fun c =>
      { c with modes := (updAt c.modes p.2 (fun m =>
          { m with resolutions := (dictInsert m.resolutions (rkeyStr (s.resIdx + 1))
              (mkRes (rkeyStr (s.resIdx + 1)) rm)) })) })) = modeKeys s.cameras := by
    apply modeKeys_updAt_keysPres
    intro c
    exact dictKeys_updAt _ _ _
  have hrk := resKeys_updAt_insRes s.cameras p.1 p.2 (rkeyStr (s.resIdx + 1))
    (mkRes (rkeyStr (s.resIdx + 1)) rm) hfresh
  refine ⟨h1, by omega, ?_, ?_, ?_, ?_, ?_⟩
  · rw [dictKeys_updAt]
    exact h3
  · rw [hmk]
    exact h4
  · intro k hk
    rw [hmk] at hk
    exact h5 k hk
  · rcases hrk with heq | hperm
    · rw [heq]
      exact h6
    · exact hperm.symm.nodup (List.nodup_cons.mpr ⟨hfresh, h6⟩)
  · intro k hk
    rcases hrk with heq | hperm
    · rw [heq] at hk
      obtain ⟨j, hj0, hjle, hjeq⟩ := h7 k hk
      exact ⟨j, hj0, by omega, hjeq⟩
    · rcases List.mem_cons.mp (hperm.mem_iff.mp hk) with hk' | hk'
      · exact ⟨s.resIdx + 1, by omega, le_refl _, hk'⟩
      · obtain ⟨j, hj0, hjle, hjeq⟩ := h7 k hk'
        exact ⟨j, hj0, by omega, hjeq⟩

theorem inv_resPhase (s : PState) (row : List Char) (s' : PState) (h : Inv s)
    (hstep : resPhase s row = .ok s') : Inv s' := by
  rw [resPhase] at hstep
  rcases hrm : resMatch? row with _ | rm
  · rw [hrm] at hstep
    cases hstep
    exact h
  · rw [hrm] at hstep
    rcases hcm : s.curMode with _ | p
    · rw [hcm] at hstep
      cases hstep
    · rw [hcm] at hstep
      cases hstep
      exact inv_resStep s p rm h

theorem inv_stepRowChars (s : PState) (row : List Char) (s' : PState) (h : Inv s)
    (hstep : stepRowChars s row = .ok s') : Inv s' := by
  rw [stepRowChars] at hstep
  by_cases hact : actionable row
  · rw [if_pos hact] at hstep
    rcases hcm : camMatch? row with _ | m
    · rw [hcm] at hstep
      rcases hmm : modeMatch? row with _ | mm
      · rw [hmm] at hstep
        exact inv_resPhase s row s' h hstep
      · rw [hmm] at hstep
        rcases hcc : s.curCam with _ | ck
        · rw [hcc] at hstep
          cases hstep
        · rw [hcc] at hstep
          exact inv_resPhase _ _ _ (inv_modeStep s ck mm h) hstep
    · rw [hcm] at hstep
      cases hstep
      exact inv_camStep s m h
  · rw [if_neg hact] at hstep
    cases hstep
    exact h

theorem inv_initState : Inv initState := by
  refine ⟨by norm_num [initState], by norm_num [initState], ?_, ?_, ?_, ?_, ?_⟩ <;>
    simp [initState, Inv, dictKeys, modeKeys, resKeys]

theorem inv_runRows (rows : List String) :
    ∀ s s' : PState, Inv s → runRows s rows = .ok s' → Inv s' := by
  induction rows with
  | nil =>
    intro s s' h hrun
    rw [runRows] at hrun
    cases hrun
    exact h
  | cons r rs ih =>
    intro s s' h hrun
    rw [runRows] at hrun
    rcases hst : stepRow s r with e | s1
    · rw [hst] at hrun
      cases hrun
    · rw [hst] at hrun
      exact ih s1 s' (inv_stepRowChars s (pyStrip r.data) s1 h hst) hrun

/-! ### Claim theorems: capability parser -/

/-- C4: in any successful parse, mode keys are globally unique across all
cameras and so are resolution keys (both are rendered from the global
counters `camera_mode_index` / `camera_mode_resolution_index`); moreover a
camera-header line never resets either counter: its step leaves both
counters unchanged. -/
theorem c4_global_counters :
    (∀ (rows : List String) (cams : List (String × Camera)),
      initCamerasFromLines rows = .ok cams →
      (modeKeys cams).Nodup ∧ (resKeys cams).Nodup) ∧
    ∀ (s : PState) (row : List Char) (m : CamMatch), actionable row = true →
      camMatch? row = some m →
      stepRowChars s row = .ok (camStep s m) ∧
        (camStep s m).modeIdx = s.modeIdx ∧ (camStep s m).resIdx = s.resIdx := by
  constructor
  · intro rows cams h
    rw [initCamerasFromLines] at h
    rcases hrun : runRows initState rows with e | sf
    · rw [hrun] at h
      cases h
    · rw [hrun] at h
      cases h
      have hinv := inv_runRows rows initState sf inv_initState hrun
      exact ⟨hinv.2.2.2.1, hinv.2.2.2.2.2.1⟩
  · intro s row m hact hcm
    rw [stepRowChars, if_pos hact, hcm]
    exact ⟨rfl, rfl, rfl⟩

/-- C4, witness: parsing a two-camera report yields globally distinct mode
keys and resolution keys, and a concrete camera-header step keeps both
counters at their prior values. -/
theorem c4_witness :
    ((modeKeys tree2).Nodup ∧ (resKeys tree2).Nodup) ∧
      stepRowChars initState ("0 : imx708 [4608x2592] (/dev/media3)").data =
        .ok (camStep initState
          { idStr := ['0'], name := ("imx708").data, w := 4608, h := 2592,
            device := ("/dev/media3").data }) :=
  ⟨c4_global_counters.1 report2 tree2 rfl,
   (c4_global_counters.2 initState ("0 : imx708 [4608x2592] (/dev/media3)").data
     { idStr := ['0'], name := ("imx708").data, w := 4608, h := 2592,
       device := ("/dev/media3").data } rfl rfl).1⟩

/-- C5: a mode-header line or a resolution-entry line arriving before the
parent level exists makes `_init_cameras` reference the still-unassigned
local `camera_modes` / `camera_mode_resolutions`, so the parse aborts with
an `UnboundLocalError` instead of silently ignoring the line. -/
theorem c5_unbound_local :
    initCamerasFromLines
        [sq ++ "SRGGB10_CSI2P" ++ sq ++ " : 1332x990 [120.05 fps - (696, 528)/1332x990 crop]"] =
      .error .unboundLocalError ∧
    initCamerasFromLines ["1332x990 [120.05 fps - (696, 528)/1332x990 crop]"] =
      .error .unboundLocalError ∧
    initCamerasFromLines
        ["0 : imx708 [4608x2592] (/dev/media3)",
         "1332x990 [120.05 fps - (696, 528)/1332x990 crop]"] =
      .error .unboundLocalError :=
  ⟨rfl, rfl, rfl⟩

/-- C9, counterexample: a report listing camera 1 before camera 0 parses
to the key sequence `["C1", "C0"]`, whose underlying integers (1, then 0)
are not in increasing order of appearance. -/
theorem c9_counterexample :
    (initCamerasFromLines
        ["1 : imx290 [1920x1080] (/dev/media1)",
         "0 : imx708 [4608x2592] (/dev/media0)"]).map dictKeys = .ok ["C1", "C0"] ∧
    ∀ i j : Int, ckeyOf (intToChars i) = "C1" → ckeyOf (intToChars j) = "C0" →
      ¬i < j := by
  refine ⟨rfl, ?_⟩
  intro i j hi hj hlt
  have hi1 : intToChars i = intToChars 1 := by
    have : ('C' : Char) :: intToChars i = 'C' :: intToChars 1 := congrArg String.data hi
    exact List.cons_injective this
  have hj0 : intToChars j = intToChars 0 := by
    have : ('C' : Char) :: intToChars j = 'C' :: intToChars 0 := congrArg String.data hj
    exact List.cons_injective this
  have := intToChars_inj hi1
  have := intToChars_inj hj0
  omega

/-- C9, amended: the camera keys of any successfully parsed tree are
unique (dictionary keys; a repeated report id replaces the earlier camera
in place), but the ids are taken verbatim from the report's leading
integer rather than assigned sequentially, so they appear in report
order, not necessarily increasing. -/
theorem c9_amended :
    ∀ (rows : List String) (cams : List (String × Camera)),
      initCamerasFromLines rows = .ok cams → (dictKeys cams).Nodup := by
  intro rows cams h
  rw [initCamerasFromLines] at h
  rcases hrun : runRows initState rows with e | sf
  · rw [hrun] at h
    cases h
  · rw [hrun] at h
    cases h
    exact (inv_runRows rows initState sf inv_initState hrun).2.2.1

/-- C9, witness: the camera keys of the parsed two-camera report are
distinct. -/
theorem c9_witness : (dictKeys tree2).Nodup :=
  c9_amended report2 tree2 rfl

/-! ### Regex-dispatch facts for the shared-line claim -/

theorem charsStartWith_append_left :
    ∀ (cs l1 l2 : List Char), charsStartWith cs (l1 ++ l2) = true →
      charsStartWith cs l1 = true := by
  intro cs l1
  induction l1 generalizing cs with
  | nil => intro l2 h; cases cs <;> rfl
  | cons p ps ih =>
    intro l2 h
    cases cs with
    | nil => simp [charsStartWith] at h
    | cons c t =>
      rw [List.cons_append, charsStartWith] at h
      simp only [Bool.and_eq_true] at h
      rw [charsStartWith]
      simp only [Bool.and_eq_true]
      exact ⟨h.1, ih t l2 h.2⟩

theorem charsStartWith_cons_inv {cs : List Char} {p : Char} {ps : List Char}
    (h : charsStartWith cs (p :: ps) = true) :
    ∃ t, cs = p :: t ∧ charsStartWith t ps = true := by
  cases cs with
  | nil => simp [charsStartWith] at h
  | cons c t =>
    rw [charsStartWith] at h
    simp only [Bool.and_eq_true] at h
    exact ⟨t, by rw [beq_iff_eq.mp h.1], h.2⟩

theorem dropLit_inv {cs lit rest : List Char} (h : dropLit cs lit = some rest) :
    charsStartWith cs lit = true ∧ rest = cs.drop lit.length := by
  rw [dropLit] at h
  by_cases hs : charsStartWith cs lit
  · rw [if_pos hs] at h
    exact ⟨hs, (Option.some.inj h).symm⟩
  · rw [if_neg hs] at h
    cases h

theorem modeMatchCore?_shape {row : List Char} {mm : ModeMatch}
    (h : modeMatchCore? row = some mm) :
    (∃ t, row = '\'' :: t) ∧ altModeQuote row = true := by
  rw [modeMatchCore?] at h
  rcases hdl : dropLit row ['\'', 'S'] with _ | r0
  · rw [hdl] at h
    cases h
  · rw [hdl] at h
    obtain ⟨hsw, hr0⟩ := dropLit_inv hdl
    obtain ⟨t1, rfl, hsw1⟩ := charsStartWith_cons_inv hsw
    obtain ⟨t2, rfl, _⟩ := charsStartWith_cons_inv hsw1
    have hr0' : r0 = t2 := by simpa using hr0
    rw [hr0'] at h
    refine ⟨⟨_, rfl⟩, ?_⟩
    rcases t2 with _ | ⟨a, t3⟩
    · simp at h
    rcases t3 with _ | ⟨b, t4⟩
    · simp at h
    rcases t4 with _ | ⟨c, t5⟩
    · simp at h
    rcases t5 with _ | ⟨d, rest⟩
    · simp at h
    dsimp only at h
    by_cases hRGB : (isRGBChar a && isRGBChar b && isRGBChar c && isRGBChar d) = true
    · have hds : (rest.takeWhile (·.isDigit)).isEmpty = false := by
        by_cases hds' : (rest.takeWhile (·.isDigit)).isEmpty = true
        · rw [if_pos hRGB, if_pos hds'] at h
          cases h
        · simpa using hds'
      have hlead : ∃ e t', rest = e :: t' ∧ e.isDigit = true := by
        cases rest with
        | nil => simp [List.takeWhile_nil] at hds
        | cons e t' =>
          rw [List.takeWhile_cons] at hds
          by_cases he : e.isDigit
          · exact ⟨e, t', rfl, he⟩
          · rw [if_neg (by simpa using he)] at hds
            simp at hds
      obtain ⟨e, t', rfl, he⟩ := hlead
      simp only [altModeQuote]
      simp only [Bool.and_eq_true] at hRGB
      simp only [Bool.and_eq_true]
      exact ⟨⟨⟨⟨hRGB.1.1.1, hRGB.1.1.2⟩, hRGB.1.2⟩, hRGB.2⟩, he⟩
    · rw [if_neg hRGB] at h
      cases h

theorem modeMatch?_actionable {row : List Char} {mm : ModeMatch}
    (h : modeMatch? row = some mm) : actionable row = true := by
  rw [modeMatch?] at h
  rcases hdl : dropLit row ['M', 'o', 'd', 'e', 's', ':', ' '] with _ | rest
  · rw [hdl] at h
    have hq := (modeMatchCore?_shape h).2
    rw [actionable, hq]
    simp
  · rw [hdl] at h
    have hpre : charsStartWith row ['M', 'o', 'd', 'e', 's', ':'] = true :=
      charsStartWith_append_left row ['M', 'o', 'd', 'e', 's', ':'] [' ']
        (dropLit_inv hdl).1
    rw [actionable, hpre]
    rfl

theorem camMatch?_none_of_head_not_digit {c : Char} {t : List Char}
    (hc : c.isDigit = false) : camMatch? (c :: t) = none := by
  rw [camMatch?]
  have hds : (c :: t).takeWhile (·.isDigit) = [] := by
    rw [List.takeWhile_cons]
    simp [hc]
  rw [hds]
  simp

theorem modeMatch?_camMatch?_none {row : List Char} {mm : ModeMatch}
    (h : modeMatch? row = some mm) : camMatch? row = none := by
  rw [modeMatch?] at h
  rcases hdl : dropLit row ['M', 'o', 'd', 'e', 's', ':', ' '] with _ | rest
  · rw [hdl] at h
    obtain ⟨⟨t, rfl⟩, _⟩ := modeMatchCore?_shape h
    exact camMatch?_none_of_head_not_digit rfl
  · rw [hdl] at h
    obtain ⟨t, rfl, _⟩ := charsStartWith_cons_inv (dropLit_inv hdl).1
    exact camMatch?_none_of_head_not_digit rfl

/-- C6: a report line that is a mode header immediately followed by a
resolution entry, processed with an open camera `ck`, produces the new
mode (keyed by the next global mode id) in that camera, holding exactly
the appended resolution as its first and only entry — the parser strips
the matched mode-header prefix (`row[len(ms.group(0)):]`) and recognizes
the resolution on the remainder. -/
theorem c6_shared_line (s : PState) (row : List Char) (mm : ModeMatch) (rm : ResMatch)
    (ck : String) (cam : Camera) (hmm : modeMatch? row = some mm)
    (hrm : resMatch? (row.drop mm.matchedLen) = some rm)
    (hck : s.curCam = some ck) (hcam : dictGet? s.cameras ck = some cam) :
    stepRowChars s row =
      .ok (resStep (modeStep s ck mm) (ck, mkeyStr (s.modeIdx + 1)) rm) ∧
    getModeAt (resStep (modeStep s ck mm) (ck, mkeyStr (s.modeIdx + 1)) rm).cameras ck
        (mkeyStr (s.modeIdx + 1)) =
      some { mkMode (mkeyStr (s.modeIdx + 1)) mm with
             resolutions := [(rkeyStr (s.resIdx + 1), mkRes (rkeyStr (s.resIdx + 1)) rm)] } := by
  constructor
  · rw [stepRowChars, if_pos (modeMatch?_actionable hmm), modeMatch?_camMatch?_none hmm,
      hmm, hck]
    dsimp only
    have hcur : (modeStep s ck mm).curMode = some (ck, mkeyStr (s.modeIdx + 1)) := rfl
    rw [resPhase, hrm, hcur]
  · simp only [getModeAt, resStep, modeStep]
    rw [dictGet?_updAt, dictGet?_updAt, hcam]
    simp only [Option.map]
    rw [dictGet?_updAt, dictGet?_dictInsert_self]
    rfl

/-- C6, witness: processing the shared line
`Modes: 'SRGGB10_CSI2P' : 1332x990 [120.05 fps - (696, 528)/1332x990 crop]`
in a state with one open camera `C0` yields mode `M0` in `C0` whose sole
resolution is `R0` with the values of the appended entry. -/
theorem c6_witness :
    getModeAt (resStep (modeStep
        { cameras := [("C0",
            { key := "C0", dtoverlay := "imx708", sensorResolution := (4608, 2592),
              device := "/dev/media3", modes := [] })],
          curCam := some "C0", curMode := none, modeIdx := -1, resIdx := -1 }
        "C0"
        { label := ("SRGGB10_CSI2P").data, bayer := ("RGGB").data,
          depthDigits := ("10").data, packTok := ("CSI2P").data, matchedLen := 25 })
        ("C0", "M0")
        { w := 1332, h := 990, fps := pyFloatOfParts ("120").data ("05").data,
          cropX := 696, cropY := 528, cropW := 1332, cropH := 990 }).cameras
      "C0" "M0" =
    some { key := "M0", mode := "SRGGB10_CSI2P", bayerOrder := "RGGB", bitDepth := 10,
           packing := "CSI2P",
           resolutions := [("R0",
             { key := "R0", resolution := (1332, 990),
               fps := pyFloatOfParts ("120").data ("05").data,
               cropPosition := (696, 528), cropResolution := (1332, 990) })] } :=
  (c6_shared_line
    { cameras := [("C0",
        { key := "C0", dtoverlay := "imx708", sensorResolution := (4608, 2592),
          device := "/dev/media3", modes := [] })],
      curCam := some "C0", curMode := none, modeIdx := -1, resIdx := -1 }
    ("Modes: " ++ sq ++ "SRGGB10_CSI2P" ++ sq ++
      " : 1332x990 [120.05 fps - (696, 528)/1332x990 crop]").data
    { label := ("SRGGB10_CSI2P").data, bayer := ("RGGB").data,
      depthDigits := ("10").data, packTok := ("CSI2P").data, matchedLen := 25 }
    { w := 1332, h := 990, fps := pyFloatOfParts ("120").data ("05").data,
      cropX := 696, cropY := 528, cropW := 1332, cropH := 990 }
    "C0"
    { key := "C0", dtoverlay := "imx708", sensorResolution := (4608, 2592),
      device := "/dev/media3", modes := [] }
    rfl rfl rfl rfl).2

end Camerpi
